import Mathlib

/-!
Verification of the siger-api-gateway core against its specification.

The Go sources are shallowly embedded: structs become structures, Go maps
(`sync.Map`, plain maps) become association lists with insert-or-replace
semantics, `time.Time` becomes a natural number of nanoseconds whose zero
value is `0`, and `uint64` counters become naturals reduced modulo `2 ^ 64`
where the source can overflow.  Go strings are kept as `String` except where
character-level parsing matters, where `List Char` is used.
-/

namespace Siger

/-- Time is modelled as nanoseconds since the epoch; the Go zero value
`time.Time{}` is modelled as `0` (`IsZero` becomes `= 0`). -/
abbrev Time := Nat

/-! ## Association-list maps

Go map semantics (insert-or-replace keyed lookup).  The job store's
`sync.Map` and the load balancer's `map[string]*uint64` are both modelled
this way. -/

/-- Lookup in an association list, Go `m[k]` / `sync.Map.Load`. -/
def mapLookup {β : Type} : List (String × β) → String → Option β
  | [], _ => none
  | p :: rest, k => if p.1 = k then some p.2 else mapLookup rest k

/-- Insert-or-replace, Go `m[k] = v` / `sync.Map.Store`. -/
def mapInsert {β : Type} : List (String × β) → String → β → List (String × β)
  | [], k, v => [(k, v)]
  | p :: rest, k, v => if p.1 = k then (k, v) :: rest else p :: mapInsert rest k v

/-- Key deletion, Go `delete(m, k)` / `sync.Map.Delete`. -/
def mapDelete {β : Type} (m : List (String × β)) (k : String) :
    List (String × β) :=
  m.filter (fun p => decide (p.1 ≠ k))

theorem mapLookup_insert {β : Type} (m : List (String × β)) (k k' : String) (v : β) :
    mapLookup (mapInsert m k v) k' = if k' = k then some v else mapLookup m k' := by
  induction m with
  | nil =>
    by_cases h : k' = k
    · simp [mapInsert, mapLookup, h]
    · simp [mapInsert, mapLookup, h, Ne.symm h]
  | cons p rest ih =>
    by_cases hp : p.1 = k
    · by_cases h : k' = k
      · simp [mapInsert, mapLookup, hp, h]
      · simp [mapInsert, mapLookup, hp, h, Ne.symm h]
    · by_cases hq : p.1 = k'
      · have h : ¬ k' = k := fun hk => hp (hq.trans hk)
        simp [mapInsert, mapLookup, hp, hq, h]
      · simp [mapInsert, mapLookup, hp, hq, ih]

theorem mapLookup_insert_self {β : Type} (m : List (String × β)) (k : String) (v : β) :
    mapLookup (mapInsert m k v) k = some v := by
  simp [mapLookup_insert]

theorem mapLookup_insert_ne {β : Type} (m : List (String × β)) (k k' : String) (v : β)
    (hne : k' ≠ k) : mapLookup (mapInsert m k v) k' = mapLookup m k' := by
  simp [mapLookup_insert, hne]

theorem mapLookup_delete {β : Type} (m : List (String × β)) (k k' : String) :
    mapLookup (mapDelete m k) k' = if k' = k then none else mapLookup m k' := by
  induction m with
  | nil => by_cases h : k' = k <;> simp [mapDelete, mapLookup, h]
  | cons p rest ih =>
    by_cases hp : p.1 = k
    · by_cases h : k' = k
      · simp_all [mapDelete, mapLookup, List.filter]
      · simp_all [mapDelete, mapLookup, List.filter, Ne.symm h]
    · by_cases hq : p.1 = k'
      · have h : ¬ k' = k := fun hk => hp (hq.trans hk)
        simp_all [mapDelete, mapLookup, List.filter]
      · simp_all [mapDelete, mapLookup, List.filter]

theorem mapLookup_mem {β : Type} (m : List (String × β)) (k : String) (v : β)
    (h : mapLookup m k = some v) : (k, v) ∈ m := by
  induction m with
  | nil => simp [mapLookup] at h
  | cons p rest ih =>
    rw [mapLookup] at h
    by_cases hp : p.1 = k
    · simp only [hp, if_pos] at h
      have hpv : p = (k, v) := by
        cases p with
        | mk a b => simp_all
      rw [hpv]
      exact List.mem_cons_self _ _
    · simp only [hp, if_neg, not_false_iff] at h
      exact List.mem_cons_of_mem _ (ih h)

/-! ## Job store (`internal/storage/job_store.go`)

`JobStatus` is a Go string type; it is kept as `String`, with the five
declared constants below.  `JobStore.jobs` is a `sync.Map` from job id to
`JobInfo`, modelled as an association list.  Functions that read the clock
take `now : Time` explicitly. -/

def JobStatusQueued : String := "queued"

def JobStatusProcessing : String := "processing"

def JobStatusCompleted : String := "completed"

def JobStatusFailed : String := "failed"

def JobStatusCancelled : String := "cancelled"

/-- A terminal status in the sense of the spec: completed, failed or
cancelled.  Matches the status test in `cleanupOldJobs` and the terminal
cases of the `switch` in `UpdateJobStatus`. -/
def isTerminalStatus (s : String) : Bool :=
  s == JobStatusCompleted || s == JobStatusFailed || s == JobStatusCancelled

/-- `JobInfo` struct from `job_store.go`. -/
structure JobInfo where
  jobID : String
  userID : String
  type : String
  name : String
  status : String
  submittedAt : Time
  startedAt : Time
  completedAt : Time
  message : String
deriving DecidableEq, Repr, Inhabited

/-- The `sync.Map` contents of a `JobStore`. -/
abbrev JobMap := List (String × JobInfo)

/-- First defaulting step of `AddJob`: a missing status defaults to
queued. -/
def defaultStatus (jobInfo : JobInfo) : JobInfo :=
  if jobInfo.status = "" then { jobInfo with status := JobStatusQueued } else jobInfo

/-- Second defaulting step of `AddJob`: a missing submitted-at defaults to
now. -/
def defaultSubmittedAt (now : Time) (jobInfo : JobInfo) : JobInfo :=
  if jobInfo.submittedAt = 0 then { jobInfo with submittedAt := now } else jobInfo

/-- The defaulting applied by `AddJob`. -/
def addJobDefaults (now : Time) (jobInfo : JobInfo) : JobInfo :=
  defaultSubmittedAt now (defaultStatus jobInfo)

/-- `AddJob`: insert or overwrite by the record's job id field; an empty
id is ignored. -/
def addJob (now : Time) (jobs : JobMap) (jobInfo : JobInfo) : JobMap :=
  if jobInfo.jobID = "" then jobs
  else mapInsert jobs (addJobDefaults now jobInfo).jobID (addJobDefaults now jobInfo)

@[simp] theorem addJobDefaults_jobID (now : Time) (j : JobInfo) :
    (addJobDefaults now j).jobID = j.jobID := by
  unfold addJobDefaults defaultSubmittedAt defaultStatus
  split <;> split <;> rfl

@[simp] theorem addJobDefaults_startedAt (now : Time) (j : JobInfo) :
    (addJobDefaults now j).startedAt = j.startedAt := by
  unfold addJobDefaults defaultSubmittedAt defaultStatus
  split <;> split <;> rfl

@[simp] theorem addJobDefaults_completedAt (now : Time) (j : JobInfo) :
    (addJobDefaults now j).completedAt = j.completedAt := by
  unfold addJobDefaults defaultSubmittedAt defaultStatus
  split <;> split <;> rfl

/-- `GetJob` / the store lookup; Go returns `(JobInfo{}, ErrJobNotFound)`
on a miss, modelled as `none`. -/
def getJob (jobs : JobMap) (jobID : String) : Option JobInfo :=
  mapLookup jobs jobID

/-- Error outcomes of `UpdateJobStatus`. -/
inductive JobStoreError where
  | notFound
deriving DecidableEq, Repr

/-- The `switch status` of `UpdateJobStatus`: on processing set started-at
if it is zero; on a terminal status set completed-at to now. -/
def applyStatusTimestamps (now : Time) (status : String) (job : JobInfo) : JobInfo :=
  if status = JobStatusProcessing then
    if job.startedAt = 0 then { job with startedAt := now } else job
  else if status = JobStatusCompleted ∨ status = JobStatusFailed ∨ status = JobStatusCancelled then
    { job with completedAt := now }
  else job

@[simp] theorem applyStatusTimestamps_status (now : Time) (st : String) (j : JobInfo) :
    (applyStatusTimestamps now st j).status = j.status := by
  unfold applyStatusTimestamps
  split
  · split <;> rfl
  · split <;> rfl

@[simp] theorem applyStatusTimestamps_message (now : Time) (st : String) (j : JobInfo) :
    (applyStatusTimestamps now st j).message = j.message := by
  unfold applyStatusTimestamps
  split
  · split <;> rfl
  · split <;> rfl

@[simp] theorem applyStatusTimestamps_jobID (now : Time) (st : String) (j : JobInfo) :
    (applyStatusTimestamps now st j).jobID = j.jobID := by
  unfold applyStatusTimestamps
  split
  · split <;> rfl
  · split <;> rfl

theorem applyStatusTimestamps_startedAt (now : Time) (st : String) (j : JobInfo)
    (h : j.startedAt ≠ 0) : (applyStatusTimestamps now st j).startedAt = j.startedAt := by
  unfold applyStatusTimestamps
  by_cases h1 : st = JobStatusProcessing
  · simp [h1, h]
  · by_cases h2 : st = JobStatusCompleted ∨ st = JobStatusFailed ∨ st = JobStatusCancelled
    · simp [h1, h2]
    · simp [h1, h2]

/-- `UpdateJobStatus` from `job_store.go`: load the record (NotFound on a
miss), then set status and message unconditionally, apply the timestamp
switch and store the updated record.  The source performs no FSM
validation. -/
def updateJobStatus (now : Time) (jobs : JobMap) (jobID : String)
    (status : String) (message : String) : Except JobStoreError JobMap :=
  match mapLookup jobs jobID with
  | none => .error .notFound
  | some job =>
    .ok (mapInsert jobs jobID
      (applyStatusTimestamps now status { job with status := status, message := message }))

/-- `DeleteJob`. -/
def deleteJob (jobs : JobMap) (jobID : String) : JobMap :=
  mapDelete jobs jobID

/-- `ListJobsByUser`. -/
def listJobsByUser (jobs : JobMap) (userID : String) : List JobInfo :=
  (jobs.filter (fun p => p.2.userID == userID)).map (·.2)

/-- `Count`. -/
def countJobs (jobs : JobMap) : Nat :=
  jobs.length

/-! ## Status-update consumer (`internal/messaging/nats.go`)

The callback of `SubscribeToStatusUpdates`, applied to one already
deserialized `JobStatusUpdate`.  The `Timestamp` and `Progress` fields of
the wire struct are never read by the handler and are omitted. -/

/-- `JobStatusUpdate` wire message (the fields the handler reads). -/
structure JobStatusUpdate where
  jobID : String
  status : String
  message : String
  startedAt : Time
  endedAt : Time
deriving DecidableEq, Repr

/-- The `switch update.Status` mapping of the handler; unrecognized values
are logged and dropped (`none`). -/
def parseStatusString (s : String) : Option String :=
  if s = "queued" then some JobStatusQueued
  else if s = "processing" then some JobStatusProcessing
  else if s = "completed" then some JobStatusCompleted
  else if s = "failed" then some JobStatusFailed
  else if s = "cancelled" then some JobStatusCancelled
  else none

/-- The body of the `jobs.status` subscription callback: map the status
string (drop unknown), call `UpdateJobStatus` (drop on error), reload the
record, then, if the message carries a non-zero `started_at`, overwrite
`StartedAt` and re-`AddJob`; likewise for `ended_at` and `CompletedAt`. -/
def handleStatusUpdate (now : Time) (jobs : JobMap) (update : JobStatusUpdate) : JobMap :=
  match parseStatusString update.status with
  | none => jobs
  | some status =>
    match updateJobStatus now jobs update.jobID status update.message with
    | .error _ => jobs
    | .ok jobs1 =>
      match getJob jobs1 update.jobID with
      | none => jobs1
      | some jobInfo =>
        let st := if update.startedAt ≠ 0 then ({ jobInfo with startedAt := update.startedAt }, addJob now jobs1 { jobInfo with startedAt := update.startedAt }) else (jobInfo, jobs1)
        if update.endedAt ≠ 0 then addJob now st.2 { st.1 with completedAt := update.endedAt } else st.2

/-! ## Claims C1 and C2: job status transitions and timestamp immutability -/

/-- A job record that has already reached the terminal status completed. -/
def cJobCompleted : JobInfo :=
  { jobID := "j", userID := "u", type := "ai_training", name := "t",
    status := JobStatusCompleted, submittedAt := 1, startedAt := 2,
    completedAt := 3, message := "done" }

/-- C1 counterexample: `UpdateJobStatus` happily moves a record whose
status is the terminal `completed` back to `processing` and returns ok,
instead of returning InvalidTransition as the claim states. -/
theorem updateJobStatus_leaves_terminal_cex :
    isTerminalStatus cJobCompleted.status = true ∧
    updateJobStatus 5 [("j", cJobCompleted)] "j" JobStatusProcessing "m"
      = .ok [("j", { cJobCompleted with status := JobStatusProcessing, message := "m" })] ∧
    JobStatusProcessing ≠ cJobCompleted.status := by
  refine ⟨by decide, ?_, by decide⟩
  rfl

/-- C1 (amended): `UpdateJobStatus` validates nothing against the FSM: for
an id absent from the store it returns NotFound, and for any id present it
accepts every requested status unconditionally, storing the requested
status and message (so terminal records can change status again). -/
theorem updateJobStatus_accepts_any_transition :
    (∀ (now : Time) (jobs : JobMap) (jobID status message : String),
       mapLookup jobs jobID = none →
       updateJobStatus now jobs jobID status message = .error .notFound) ∧
    (∀ (now : Time) (jobs : JobMap) (jobID status message : String) (job : JobInfo),
       mapLookup jobs jobID = some job →
       ∃ jobs1 job1, updateJobStatus now jobs jobID status message = .ok jobs1 ∧
         mapLookup jobs1 jobID = some job1 ∧
         job1.status = status ∧ job1.message = message) := by
  constructor
  · intro now jobs jobID status message h
    simp [updateJobStatus, h]
  · intro now jobs jobID status message job h
    simp only [updateJobStatus, h]
    exact ⟨_, _, rfl, mapLookup_insert_self _ _ _, by simp, by simp⟩

/-- Witness for `updateJobStatus_accepts_any_transition` at a concrete
store holding a completed job. -/
theorem updateJobStatus_accepts_any_transition_witness :
    ∃ jobs1 job1,
      updateJobStatus 5 [("j", cJobCompleted)] "j" JobStatusProcessing "m" = .ok jobs1 ∧
      mapLookup jobs1 "j" = some job1 ∧
      job1.status = JobStatusProcessing ∧ job1.message = "m" :=
  updateJobStatus_accepts_any_transition.2 5 [("j", cJobCompleted)] "j"
    JobStatusProcessing "m" cJobCompleted rfl

/-- A job record currently processing, with a non-zero started-at. -/
def pJobProcessing : JobInfo :=
  { jobID := "j", userID := "u", type := "ai_training", name := "t",
    status := JobStatusProcessing, submittedAt := 1, startedAt := 3,
    completedAt := 0, message := "running" }

/-- A status update carrying a started_at different from the already-set
value of the stored record. -/
def updOverwriteStart : JobStatusUpdate :=
  { jobID := "j", status := "processing", message := "m2", startedAt := 7, endedAt := 0 }

/-- C2 counterexample: the status-update consumer overwrites an
already-set (non-zero) started-at with the started_at of the message. -/
theorem handleStatusUpdate_overwrites_startedAt_cex :
    pJobProcessing.startedAt = 3 ∧ pJobProcessing.startedAt ≠ 0 ∧
    (mapLookup (handleStatusUpdate 10 [("j", pJobProcessing)] updOverwriteStart) "j").map
      (·.startedAt) = some 7 := by
  refine ⟨rfl, by decide, ?_⟩
  rfl

/-- C2 (amended): `UpdateJobStatus` itself never changes a non-zero
started-at, but the status-update consumer applies message timestamps
unconditionally: whenever the message carries a non-zero started_at the
stored record's started-at becomes that value (overwriting any already-set
value), and whenever it carries a non-zero ended_at the stored completed-at
becomes that value. -/
theorem statusUpdate_timestamps_overwritten :
    (∀ (now : Time) (jobs jobs1 : JobMap) (jobID status message : String) (job job1 : JobInfo),
       mapLookup jobs jobID = some job → job.startedAt ≠ 0 →
       updateJobStatus now jobs jobID status message = .ok jobs1 →
       mapLookup jobs1 jobID = some job1 →
       job1.startedAt = job.startedAt) ∧
    (∀ (now : Time) (jobs : JobMap) (update : JobStatusUpdate) (job : JobInfo) (st : String),
       mapLookup jobs update.jobID = some job → job.jobID = update.jobID →
       update.jobID ≠ "" → parseStatusString update.status = some st →
       ∃ jr, mapLookup (handleStatusUpdate now jobs update) update.jobID = some jr ∧
         (update.startedAt ≠ 0 → jr.startedAt = update.startedAt) ∧
         (update.endedAt ≠ 0 → jr.completedAt = update.endedAt)) := by
  constructor
  · intro now jobs jobs1 jobID status message job job1 h hs hupd hlook
    simp only [updateJobStatus, h] at hupd
    injection hupd with h1
    subst h1
    rw [mapLookup_insert_self] at hlook
    injection hlook with h2
    subst h2
    rw [applyStatusTimestamps_startedAt]
    exact hs
  · intro now jobs update job st h hkey hne hparse
    simp only [handleStatusUpdate, hparse, updateJobStatus, h, getJob,
      mapLookup_insert_self]
    have hjid : (applyStatusTimestamps now st
        { job with status := st, message := update.message }).jobID = update.jobID := by
      simp [hkey]
    by_cases hs : update.startedAt = 0 <;> by_cases he : update.endedAt = 0
    · -- neither timestamp present: the record written by UpdateJobStatus stays
      simp only [hs, he, ne_eq, not_true_eq_false, if_false, if_neg]
      exact ⟨_, mapLookup_insert_self _ _ _, fun hc => hc.elim, fun hc => hc.elim⟩
    · -- only ended_at present
      simp only [hs, he, ne_eq, not_true_eq_false, not_false_eq_true, if_false, if_true,
        addJob, hjid, hne, addJobDefaults_jobID]
      refine ⟨_, mapLookup_insert_self _ _ _, fun hc => hc.elim, fun _ => ?_⟩
      simp
    · -- only started_at present
      simp only [hs, he, ne_eq, not_true_eq_false, not_false_eq_true, if_false, if_true,
        addJob, hjid, hne, addJobDefaults_jobID]
      refine ⟨_, mapLookup_insert_self _ _ _, fun _ => ?_, fun hc => hc.elim⟩
      simp
    · -- both timestamps present: two AddJob calls, the second wins
      simp only [hs, he, ne_eq, not_false_eq_true, if_true,
        addJob, hjid, hne, addJobDefaults_jobID]
      refine ⟨_, mapLookup_insert_self _ _ _, fun _ => ?_, fun _ => ?_⟩ <;> simp

/-- Witness for `statusUpdate_timestamps_overwritten` on a store holding a
processing job with started-at already set. -/
theorem statusUpdate_timestamps_overwritten_witness :
    ∃ jr, mapLookup (handleStatusUpdate 10 [("j", pJobProcessing)] updOverwriteStart)
        updOverwriteStart.jobID = some jr ∧
      (updOverwriteStart.startedAt ≠ 0 → jr.startedAt = updOverwriteStart.startedAt) ∧
      (updOverwriteStart.endedAt ≠ 0 → jr.completedAt = updOverwriteStart.endedAt) :=
  statusUpdate_timestamps_overwritten.2 10 [("j", pJobProcessing)] updOverwriteStart
    pJobProcessing JobStatusProcessing rfl rfl (by decide) rfl

/-! ## Load balancer (`internal/discovery/load_balancer.go`)

The `uint64` round-robin counter and the in-flight connection counters are
modelled as naturals reduced modulo `2 ^ 64`; the Go conversion
`int(count)` and the `%` of a possibly negative `int` are modelled exactly
(`goUint64ToInt`, `Int.tmod`). -/

/-- `ServiceInstance` from `internal/discovery/consul.go`. -/
structure ServiceInstance where
  id : String
  serviceName : String
  address : String
  port : Nat
  healthy : Bool
  metadata : List (String × String)
deriving DecidableEq, Repr, Inhabited

/-- The three load-balancing policies. -/
inductive LoadBalancerType where
  | roundRobin
  | random
  | leastConnections
deriving DecidableEq, Repr

/-- One more than the largest `uint64` value. -/
def UINT64_LIMIT : Nat := 2 ^ 64

/-- The Go conversion `int(c)` of a `uint64` value `c`: two's complement
reinterpretation into a signed 64-bit integer. -/
def goUint64ToInt (c : Nat) : Int :=
  if c < 2 ^ 63 then (c : Int) else (c : Int) - (2 ^ 64 : Int)

/-- `LoadBalancer` struct: instance snapshot, policy, round-robin counter
and the in-flight counter map. -/
structure LoadBalancer where
  serviceInstances : List ServiceInstance
  lbType : LoadBalancerType
  counter : Nat
  connectionCount : List (String × Nat)
deriving DecidableEq, Repr

/-- `NewLoadBalancer`: zero counters for every instance of the initial
snapshot, round-robin counter zero. -/
def newLoadBalancer (lbType : LoadBalancerType) (instances : List ServiceInstance) :
    LoadBalancer :=
  { serviceInstances := instances
    lbType := lbType
    counter := 0
    connectionCount := instances.foldl (fun m i => mapInsert m i.id 0) [] }

/-- `UpdateInstances`: replace the snapshot and rebuild the counter map,
keeping the existing counter for ids that already exist and starting new
ids at zero. -/
def updateInstances (lb : LoadBalancer) (instances : List ServiceInstance) :
    LoadBalancer :=
  { lb with
    serviceInstances := instances
    connectionCount := instances.foldl (fun m i =>
      match mapLookup lb.connectionCount i.id with
      | some counter => mapInsert m i.id counter
      | none => mapInsert m i.id 0) [] }

/-- `InstanceBegin`: increment the in-flight counter of an id that exists
in the counter map (wrapping `uint64` addition); ids with no counter are
ignored. -/
def instanceBegin (lb : LoadBalancer) (instanceID : String) : LoadBalancer :=
  match mapLookup lb.connectionCount instanceID with
  | some v =>
    { lb with connectionCount := mapInsert lb.connectionCount instanceID ((v + 1) % UINT64_LIMIT) }
  | none => lb

/-- `InstanceEnd`: decrement by adding `^uint64(0)` (i.e. `2 ^ 64 - 1`)
modulo `2 ^ 64`, guarded by a zero check, so the counter saturates at
zero; ids with no counter are ignored. -/
def instanceEnd (lb : LoadBalancer) (instanceID : String) : LoadBalancer :=
  match mapLookup lb.connectionCount instanceID with
  | some v =>
    if 0 < v then
      { lb with connectionCount := mapInsert lb.connectionCount instanceID ((v + (UINT64_LIMIT - 1)) % UINT64_LIMIT) }
    else lb
  | none => lb

theorem updateInstances_foldl_lookup (old : List (String × Nat))
    (l : List ServiceInstance) (acc : List (String × Nat)) (id : String) :
    mapLookup (l.foldl (fun m i =>
      match mapLookup old i.id with
      | some counter => mapInsert m i.id counter
      | none => mapInsert m i.id 0) acc) id =
    if id ∈ l.map (·.id) then some ((mapLookup old id).getD 0)
    else mapLookup acc id := by
  induction l generalizing acc with
  | nil => simp
  | cons i l ih =>
    rw [List.foldl_cons, ih]
    have hstep : mapLookup
        (match mapLookup old i.id with
         | some counter => mapInsert acc i.id counter
         | none => mapInsert acc i.id 0) id =
        if id = i.id then some ((mapLookup old i.id).getD 0) else mapLookup acc id := by
      cases hv : mapLookup old i.id <;> simp [hv, mapLookup_insert]
    by_cases hmem : id ∈ l.map (·.id)
    · simp [hmem]
    · by_cases hid : id = i.id
      · subst hid
        simp [hmem, hstep]
      · simp [hmem, hid, hstep]

/-- Lookup characterization of `UpdateInstances`: the rebuilt counter map
binds exactly the ids of the new snapshot, carrying over the old counter
value (or zero for a new id). -/
theorem updateInstances_lookup (lb : LoadBalancer) (instances : List ServiceInstance)
    (id : String) :
    mapLookup (updateInstances lb instances).connectionCount id =
      if id ∈ instances.map (·.id) then some ((mapLookup lb.connectionCount id).getD 0)
      else none := by
  unfold updateInstances
  rw [updateInstances_foldl_lookup]
  simp [mapLookup]

/-- C6: after `UpdateInstances` the counter map key set equals the id set of
the new snapshot; surviving ids keep their counter values and new ids start
at zero. -/
theorem updateInstances_reconciles :
    (∀ (lb : LoadBalancer) (instances : List ServiceInstance) (id : String),
       (mapLookup (updateInstances lb instances).connectionCount id).isSome
         ↔ id ∈ instances.map (·.id)) ∧
    (∀ (lb : LoadBalancer) (instances : List ServiceInstance) (id : String) (v : Nat),
       id ∈ instances.map (·.id) → mapLookup lb.connectionCount id = some v →
       mapLookup (updateInstances lb instances).connectionCount id = some v) ∧
    (∀ (lb : LoadBalancer) (instances : List ServiceInstance) (id : String),
       id ∈ instances.map (·.id) → mapLookup lb.connectionCount id = none →
       mapLookup (updateInstances lb instances).connectionCount id = some 0) := by
  refine ⟨?_, ?_, ?_⟩
  · intro lb instances id
    rw [updateInstances_lookup]
    by_cases h : id ∈ instances.map (·.id) <;> simp [h]
  · intro lb instances id v hmem hv
    rw [updateInstances_lookup]
    simp [hmem, hv]
  · intro lb instances id hmem hv
    rw [updateInstances_lookup]
    simp [hmem, hv]

/-- Instance `a` at 10.0.0.1:8080 (scenario S5). -/
def instA : ServiceInstance :=
  { id := "a", serviceName := "svc", address := "10.0.0.1", port := 8080,
    healthy := true, metadata := [] }

/-- Instance `b` at 10.0.0.2:8080 (scenario S5). -/
def instB : ServiceInstance :=
  { id := "b", serviceName := "svc", address := "10.0.0.2", port := 8080,
    healthy := true, metadata := [] }

/-- Instance `c` at 10.0.0.3:8080 (scenario S5). -/
def instC : ServiceInstance :=
  { id := "c", serviceName := "svc", address := "10.0.0.3", port := 8080,
    healthy := true, metadata := [] }

/-- A load balancer over `[a, b]` with in-flight counters a = 2, b = 3. -/
def lbAB : LoadBalancer :=
  { serviceInstances := [instA, instB], lbType := .leastConnections,
    counter := 0, connectionCount := [("a", 2), ("b", 3)] }

/-- Witness for `updateInstances_reconciles`: replacing the snapshot
`[a, b]` by `[b, c]` keeps the counter of `b` and starts `c` at zero. -/
theorem updateInstances_reconciles_witness :
    mapLookup (updateInstances lbAB [instB, instC]).connectionCount "b" = some 3 ∧
    mapLookup (updateInstances lbAB [instB, instC]).connectionCount "c" = some 0 :=
  ⟨updateInstances_reconciles.2.1 lbAB [instB, instC] "b" 3 (by decide) rfl,
   updateInstances_reconciles.2.2 lbAB [instB, instC] "c" (by decide) rfl⟩

/-! ## Claim C8: in-flight counters under interleaved operations -/

/-- An operation on the counter side of a load balancer. -/
inductive LBOp where
  | beginOp (id : String)
  | endOp (id : String)
  | updateOp (instances : List ServiceInstance)

/-- Apply one operation. -/
def applyLBOp (lb : LoadBalancer) : LBOp → LoadBalancer
  | .beginOp id => instanceBegin lb id
  | .endOp id => instanceEnd lb id
  | .updateOp instances => updateInstances lb instances

/-- Run a sequence of operations. -/
def runLBOps (lb : LoadBalancer) (ops : List LBOp) : LoadBalancer :=
  ops.foldl applyLBOp lb

/-- Number of `InstanceBegin` calls in a sequence. -/
def countBegins : List LBOp → Nat
  | [] => 0
  | .beginOp _ :: ops => countBegins ops + 1
  | .endOp _ :: ops => countBegins ops
  | .updateOp _ :: ops => countBegins ops

theorem newLoadBalancer_foldl_lookup (l : List ServiceInstance)
    (acc : List (String × Nat)) (id : String) :
    mapLookup (l.foldl (fun m i => mapInsert m i.id 0) acc) id =
      if id ∈ l.map (·.id) then some 0 else mapLookup acc id := by
  induction l generalizing acc with
  | nil => simp
  | cons i l ih =>
    rw [List.foldl_cons, ih]
    by_cases hmem : id ∈ l.map (·.id)
    · simp [hmem]
    · by_cases hid : id = i.id
      · subst hid
        simp [hmem, mapLookup_insert]
      · simp [hmem, hid, mapLookup_insert]

theorem runLBOps_counter_le (ops : List LBOp) (lb : LoadBalancer) (B : Nat)
    (h : ∀ id v, mapLookup lb.connectionCount id = some v → v ≤ B) :
    ∀ id v, mapLookup (runLBOps lb ops).connectionCount id = some v →
      v ≤ B + countBegins ops := by
  induction ops generalizing lb B with
  | nil =>
    intro id v hv
    simpa [countBegins] using h id v (by simpa [runLBOps] using hv)
  | cons op ops ih =>
    intro id v hv
    have hrun : runLBOps lb (op :: ops) = runLBOps (applyLBOp lb op) ops := by
      simp [runLBOps]
    rw [hrun] at hv
    cases op with
    | beginOp bid =>
      have h1 : ∀ id v, mapLookup (instanceBegin lb bid).connectionCount id = some v →
          v ≤ B + 1 := by
        intro id v hv
        unfold instanceBegin at hv
        cases hw : mapLookup lb.connectionCount bid with
        | none =>
          rw [hw] at hv
          exact le_trans (h id v hv) (Nat.le_succ B)
        | some w =>
          rw [hw] at hv
          simp only [mapLookup_insert] at hv
          by_cases hid : id = bid
          · simp only [hid, if_pos, Option.some.injEq] at hv
            have := Nat.mod_le (w + 1) UINT64_LIMIT
            have hwB := h bid w hw
            omega
          · simp only [hid, if_neg, not_false_iff] at hv
            exact le_trans (h id v hv) (Nat.le_succ B)
      have := ih (instanceBegin lb bid) (B + 1) h1 id v hv
      simp only [countBegins]
      omega
    | endOp eid =>
      have h1 : ∀ id v, mapLookup (instanceEnd lb eid).connectionCount id = some v →
          v ≤ B := by
        intro id v hv
        unfold instanceEnd at hv
        cases hw : mapLookup lb.connectionCount eid with
        | none =>
          rw [hw] at hv
          exact h id v hv
        | some w =>
          rw [hw] at hv
          by_cases hpos : 0 < w
          · simp only [hpos, if_pos] at hv
            simp only [mapLookup_insert] at hv
            by_cases hid : id = eid
            · simp only [hid, if_pos] at hv
              have heq : w + (UINT64_LIMIT - 1) = (w - 1) + UINT64_LIMIT := by
                have : 0 < UINT64_LIMIT := by decide
                omega
              have hwB := h eid w hw
              rw [heq, Nat.add_mod_right] at hv
              simp only [Option.some.injEq] at hv
              have := Nat.mod_le (w - 1) UINT64_LIMIT
              omega
            · simp only [hid, if_neg, not_false_iff] at hv
              exact h id v hv
          · simp only [hpos, if_neg, not_false_iff] at hv
            exact h id v hv
      have := ih (instanceEnd lb eid) B h1 id v hv
      simpa [countBegins] using this
    | updateOp instances =>
      have h1 : ∀ id v, mapLookup (updateInstances lb instances).connectionCount id = some v →
          v ≤ B := by
        intro id v hv
        rw [updateInstances_lookup] at hv
        by_cases hmem : id ∈ instances.map (·.id)
        · simp only [hmem, if_pos] at hv
          cases hw : mapLookup lb.connectionCount id with
          | none => simp [hw] at hv; omega
          | some w =>
            rw [hw] at hv
            simp only [Option.getD_some, Option.some.injEq] at hv
            subst hv
            exact h id w hw
        · simp [hmem] at hv
      have := ih (updateInstances lb instances) B h1 id v hv
      simpa [countBegins] using this

/-- C8: `InstanceEnd` saturates at zero (a zero counter stays zero, with no
unsigned wrap-around), never creates a counter for an unknown id, and after
any interleaved sequence of begin/end/update operations from a fresh load
balancer every in-flight counter is a natural number bounded by the number
of begin calls (so no end ever drives a counter below zero). -/
theorem instanceEnd_saturates :
    (∀ (lb : LoadBalancer) (id : String),
       mapLookup lb.connectionCount id = some 0 → instanceEnd lb id = lb) ∧
    (∀ (lb : LoadBalancer) (id : String),
       mapLookup lb.connectionCount id = none →
       mapLookup (instanceEnd lb id).connectionCount id = none) ∧
    (∀ (lbType : LoadBalancerType) (instances : List ServiceInstance)
       (ops : List LBOp) (id : String) (v : Nat),
       mapLookup (runLBOps (newLoadBalancer lbType instances) ops).connectionCount id = some v →
       v ≤ countBegins ops) := by
  refine ⟨?_, ?_, ?_⟩
  · intro lb id h
    simp [instanceEnd, h]
  · intro lb id h
    simp [instanceEnd, h]
  · intro lbType instances ops id v hv
    have h0 : ∀ id v, mapLookup (newLoadBalancer lbType instances).connectionCount id = some v →
        v ≤ 0 := by
      intro id v hv
      unfold newLoadBalancer at hv
      rw [newLoadBalancer_foldl_lookup] at hv
      by_cases hmem : id ∈ instances.map (·.id)
      · simp only [hmem, if_pos, Option.some.injEq] at hv
        omega
      · simp [hmem, mapLookup] at hv
    simpa using runLBOps_counter_le ops (newLoadBalancer lbType instances) 0 h0 id v hv

/-! ## Claim C7: round-robin fairness

Counting how often each residue class is hit over a window of consecutive
counter values. -/

theorem add_mod_eq_iff_mod_eq (c n k : Nat) (hn : 0 < n) (hk : k < n) (i : Nat) :
    (c + i) % n = k ↔ i % n = (k + n - c % n) % n := by
  have hcn : c % n < n := Nat.mod_lt _ hn
  have hkey : ∀ r : Nat, (c + r) % n = (c % n + r % n) % n := fun r => by
    rw [Nat.add_mod]
  have hi0k : (c % n + (k + n - c % n) % n) % n = k := by
    rw [Nat.add_mod_mod, show c % n + (k + n - c % n) = k + n by omega,
      Nat.add_mod_right, Nat.mod_eq_of_lt hk]
  constructor
  · intro h
    rw [hkey] at h
    have h2 : (c % n + i % n) % n = (c % n + (k + n - c % n) % n) % n := by
      rw [h, hi0k]
    have h3 : i % n ≡ (k + n - c % n) % n [MOD n] :=
      Nat.ModEq.add_left_cancel' (c % n) h2
    have h4 : i % n < n := Nat.mod_lt _ hn
    have h5 : (k + n - c % n) % n < n := Nat.mod_lt _ hn
    rwa [Nat.ModEq, Nat.mod_eq_of_lt h4, Nat.mod_eq_of_lt h5] at h3
  · intro h
    rw [hkey, h]
    exact hi0k

theorem dvd_add_sub_iff_mod_eq (n i0 N : Nat) (hn : 0 < n) (hi0 : i0 < n) :
    n ∣ (N + (n - i0)) ↔ N % n = i0 := by
  have ha : N % n < n := Nat.mod_lt _ hn
  have hsplit : N + (n - i0) = n * (N / n) + (N % n + (n - i0)) := by
    have := Nat.div_add_mod N n
    omega
  rw [hsplit, Nat.dvd_add_right (dvd_mul_right n (N / n))]
  by_cases h : N % n < i0
  · have hlt : N % n + (n - i0) < n := by omega
    have hpos : 0 < N % n + (n - i0) := by omega
    constructor
    · intro hd
      exact absurd (Nat.le_of_dvd hpos hd) (by omega)
    · intro he
      omega
  · rw [show N % n + (n - i0) = (N % n - i0) + n by omega, Nat.dvd_add_self_right]
    constructor
    · intro hd
      have := Nat.eq_zero_of_dvd_of_lt hd (by omega)
      omega
    · intro he
      simp [he]

/-- Among `N` consecutive values `c, c + 1, …, c + N - 1`, the number
falling in the residue class `k` modulo `n` has a closed form. -/
theorem range_filter_mod_length (c n k : Nat) (hn : 0 < n) (hk : k < n) (N : Nat) :
    ((List.range N).filter (fun i => decide ((c + i) % n = k))).length
      = (N + (n - 1 - (k + n - c % n) % n)) / n := by
  have hi0 : (k + n - c % n) % n < n := Nat.mod_lt _ hn
  induction N with
  | zero =>
    simp only [List.range_zero, List.filter_nil, List.length_nil, Nat.zero_add]
    exact (Nat.div_eq_of_lt (by omega)).symm
  | succ N ih =>
    rw [List.range_succ, List.filter_append, List.length_append, ih]
    have hstep : (N + 1 + (n - 1 - (k + n - c % n) % n))
        = (N + (n - 1 - (k + n - c % n) % n)) + 1 := by omega
    rw [hstep, Nat.succ_div]
    have hdvd : (n ∣ N + (n - 1 - (k + n - c % n) % n) + 1)
        ↔ (c + N) % n = k := by
      rw [show N + (n - 1 - (k + n - c % n) % n) + 1 = N + (n - (k + n - c % n) % n) by omega]
      rw [dvd_add_sub_iff_mod_eq n _ N hn hi0]
      exact (add_mod_eq_iff_mod_eq c n k hn hk N).symm
    by_cases hc : (c + N) % n = k
    · simp [hc, hdvd.mpr hc]
    · have hnd : ¬ n ∣ N + (n - 1 - (k + n - c % n) % n) + 1 := fun hd => hc (hdvd.mp hd)
      simp [hc, hnd]

/-- Fairness bounds derived from the closed form: each residue class is
hit at least `⌊N / n⌋` and at most `⌈N / n⌉ = ⌊(N + n - 1) / n⌋` times. -/
theorem range_filter_mod_bounds (c n k : Nat) (hn : 0 < n) (hk : k < n) (N : Nat) :
    N / n ≤ ((List.range N).filter (fun i => decide ((c + i) % n = k))).length ∧
    ((List.range N).filter (fun i => decide ((c + i) % n = k))).length ≤ (N + n - 1) / n := by
  rw [range_filter_mod_length c n k hn hk N]
  constructor
  · exact Nat.div_le_div_right (by omega)
  · exact Nat.div_le_div_right (by omega)

/-- The `LeastConnections` selection loop of `GetInstance`: scan the
snapshot, tracking the smallest counter seen (initially `^uint64(0)`) and
the index holding it (initially 0); ids missing from the counter map are
skipped. -/
def leastConnLoop (cc : List (String × Nat)) :
    List ServiceInstance → Nat → Nat → Nat → Nat
  | [], _, _, sel => sel
  | inst :: rest, i, minC, sel =>
    match mapLookup cc inst.id with
    | some v =>
      if v < minC then leastConnLoop cc rest (i + 1) v i
      else leastConnLoop cc rest (i + 1) minC sel
    | none => leastConnLoop cc rest (i + 1) minC sel

/-- `GetInstance`: error (`none`) on an empty snapshot; otherwise select an
index by policy and return the instance there.  `rnd` models the value
drawn by `rand.Intn` for the random policy.  For round robin the source
computes `int(count) % len`, which Go evaluates with truncated division; a
negative result (possible once the `uint64` counter reaches `2 ^ 63`)
would make the Go slice indexing panic, modelled as `none`. -/
def getInstance (lb : LoadBalancer) (rnd : Nat) :
    Option (ServiceInstance × LoadBalancer) :=
  if lb.serviceInstances.isEmpty then none
  else
    match lb.lbType with
    | .roundRobin =>
      let count := (lb.counter + 1) % UINT64_LIMIT
      let idx : Int := (goUint64ToInt count).tmod (lb.serviceInstances.length : Int)
      if h : 0 ≤ idx ∧ idx.toNat < lb.serviceInstances.length then
        some (lb.serviceInstances.get ⟨idx.toNat, h.2⟩, { lb with counter := count })
      else none
    | .random =>
      let idx := rnd % lb.serviceInstances.length
      if h : idx < lb.serviceInstances.length then
        some (lb.serviceInstances.get ⟨idx, h⟩, lb)
      else none
    | .leastConnections =>
      let idx := leastConnLoop lb.connectionCount lb.serviceInstances 0 (UINT64_LIMIT - 1) 0
      if h : idx < lb.serviceInstances.length then
        some (lb.serviceInstances.get ⟨idx, h⟩, lb)
      else none

/-- `N` successive `GetInstance` calls with no intervening operations,
collecting the returned instances (stopping on an error). -/
def rrRun (lb : LoadBalancer) : Nat → List ServiceInstance × LoadBalancer
  | 0 => ([], lb)
  | n + 1 =>
    match getInstance lb 0 with
    | some (inst, lb1) =>
      let r := rrRun lb1 n
      (inst :: r.1, r.2)
    | none => ([], lb)

theorem getInstance_roundRobin (lb : LoadBalancer)
    (hrr : lb.lbType = .roundRobin) (hne : lb.serviceInstances ≠ [])
    (hc : lb.counter + 1 < 2 ^ 63) (rnd : Nat) :
    getInstance lb rnd =
      some (lb.serviceInstances.getD
              ((lb.counter + 1) % lb.serviceInstances.length) default,
            { lb with counter := lb.counter + 1 }) := by
  have hlen : 0 < lb.serviceInstances.length := List.length_pos.mpr hne
  have hcount : (lb.counter + 1) % UINT64_LIMIT = lb.counter + 1 :=
    Nat.mod_eq_of_lt (by unfold UINT64_LIMIT; omega)
  have hint : goUint64ToInt (lb.counter + 1) = ((lb.counter + 1 : Nat) : Int) := by
    unfold goUint64ToInt
    rw [if_pos hc]
  have htmod : ((lb.counter + 1 : Nat) : Int).tmod (lb.serviceInstances.length : Int)
      = (((lb.counter + 1) % lb.serviceInstances.length : Nat) : Int) :=
    (Int.ofNat_tmod _ _).symm
  have hidx : (lb.counter + 1) % lb.serviceInstances.length < lb.serviceInstances.length :=
    Nat.mod_lt _ hlen
  unfold getInstance
  rw [if_neg (by simpa [List.isEmpty_iff] using hne), hrr]
  simp only [hcount, hint, htmod]
  rw [dif_pos ⟨Int.natCast_nonneg _, by simpa using hidx⟩]
  simp only [List.get_eq_getElem, Int.toNat_natCast,
    List.getD_eq_getElem lb.serviceInstances default hidx]

theorem rrRun_succ_of_some (lb lb1 : LoadBalancer) (inst : ServiceInstance) (n : Nat)
    (h : getInstance lb 0 = some (inst, lb1)) :
    rrRun lb (n + 1) = (inst :: (rrRun lb1 n).1, (rrRun lb1 n).2) := by
  rw [rrRun, h]

theorem rrRun_spec (lb : LoadBalancer) (N : Nat)
    (hrr : lb.lbType = .roundRobin) (hne : lb.serviceInstances ≠ [])
    (hc : lb.counter + N < 2 ^ 63) :
    rrRun lb N =
      ((List.range N).map (fun i =>
          lb.serviceInstances.getD
            ((lb.counter + 1 + i) % lb.serviceInstances.length) default),
       { lb with counter := lb.counter + N }) := by
  induction N generalizing lb with
  | zero =>
    simp [rrRun]
  | succ N ih =>
    rw [rrRun_succ_of_some lb _ _ N (getInstance_roundRobin lb hrr hne (by omega) 0)]
    have ih2 := ih { lb with counter := lb.counter + 1 }
      (by simpa using hrr) (by simpa using hne) (by simp; omega)
    rw [ih2]
    simp only [List.range_succ_eq_map, List.map_cons, List.map_map, Prod.mk.injEq,
      Nat.add_zero]
    refine ⟨?_, ?_⟩
    · refine congrArg₂ List.cons rfl ?_
      apply List.map_congr_left
      intro i _
      simp only [Function.comp_apply]
      congr 2
      omega
    · congr 1
      omega

/-- C7: over `N` successive `GetInstance` calls against a static snapshot
of `n` distinct instances under round robin (with fewer than `2 ^ 63`
lifetime calls, so the `uint64` counter cast to `int` stays non-negative),
each instance is returned at least `⌊N / n⌋` and at most
`⌈N / n⌉ = ⌊(N + n - 1) / n⌋` times; and on a fresh two-instance balancer
four successive calls return the two instances in exact alternation. -/
theorem roundRobin_fairness :
    (∀ (lb : LoadBalancer) (N : Nat),
       lb.lbType = .roundRobin → lb.serviceInstances ≠ [] →
       lb.serviceInstances.Nodup → lb.counter + N < 2 ^ 63 →
       ∀ (j : Nat) (hj : j < lb.serviceInstances.length),
         N / lb.serviceInstances.length ≤
             (rrRun lb N).1.count (lb.serviceInstances.get ⟨j, hj⟩) ∧
         (rrRun lb N).1.count (lb.serviceInstances.get ⟨j, hj⟩) ≤
             (N + lb.serviceInstances.length - 1) / lb.serviceInstances.length) ∧
    (∀ a b : ServiceInstance,
       (rrRun (newLoadBalancer .roundRobin [a, b]) 4).1 = [b, a, b, a]) := by
  constructor
  · intro lb N hrr hne hnd hc j hj
    have hn : 0 < lb.serviceInstances.length := List.length_pos.mpr hne
    have h1 : (rrRun lb N).1 = (List.range N).map (fun i =>
        lb.serviceInstances.getD
          ((lb.counter + 1 + i) % lb.serviceInstances.length) default) := by
      rw [rrRun_spec lb N hrr hne hc]
    rw [h1, List.count, List.countP_map, List.countP_eq_length_filter]
    have hpred : ∀ i ∈ List.range N,
        (((fun x => x == lb.serviceInstances.get ⟨j, hj⟩) ∘ fun i =>
            lb.serviceInstances.getD
              ((lb.counter + 1 + i) % lb.serviceInstances.length) default) i) =
        decide ((lb.counter + 1 + i) % lb.serviceInstances.length = j) := by
      intro i _
      have hm : (lb.counter + 1 + i) % lb.serviceInstances.length
          < lb.serviceInstances.length := Nat.mod_lt _ hn
      simp only [Function.comp_apply, List.getD_eq_getElem _ _ hm]
      by_cases hmod : (lb.counter + 1 + i) % lb.serviceInstances.length = j
      · simp [hmod, List.get_eq_getElem]
      · have hne2 : lb.serviceInstances[(lb.counter + 1 + i) % lb.serviceInstances.length]
            ≠ lb.serviceInstances[j] := by
          intro he
          apply hmod
          have he2 : lb.serviceInstances.get ⟨(lb.counter + 1 + i) % lb.serviceInstances.length, hm⟩
              = lb.serviceInstances.get ⟨j, hj⟩ := by
            simpa [List.get_eq_getElem] using he
          have := (List.Nodup.get_inj_iff hnd).mp he2
          exact congrArg Fin.val this
        simp [hmod, hne2, List.get_eq_getElem]
    rw [List.filter_congr hpred]
    exact range_filter_mod_bounds (lb.counter + 1) lb.serviceInstances.length j hn hj N
  · intro a b
    rw [rrRun_spec (newLoadBalancer .roundRobin [a, b]) 4 rfl
      (by simp [newLoadBalancer]) (by simp [newLoadBalancer])]
    simp [newLoadBalancer, List.range_succ, List.getD]

/-- Witness for `roundRobin_fairness` on a fresh two-instance balancer and
four calls: each of the two instances is selected exactly twice. -/
theorem roundRobin_fairness_witness :
    4 / (newLoadBalancer .roundRobin [instA, instB]).serviceInstances.length ≤
        (rrRun (newLoadBalancer .roundRobin [instA, instB]) 4).1.count
          ((newLoadBalancer .roundRobin [instA, instB]).serviceInstances.get
            ⟨0, by decide⟩) ∧
    (rrRun (newLoadBalancer .roundRobin [instA, instB]) 4).1.count
        ((newLoadBalancer .roundRobin [instA, instB]).serviceInstances.get
          ⟨0, by decide⟩) ≤
      (4 + (newLoadBalancer .roundRobin [instA, instB]).serviceInstances.length - 1) /
        (newLoadBalancer .roundRobin [instA, instB]).serviceInstances.length :=
  roundRobin_fairness.1 (newLoadBalancer .roundRobin [instA, instB]) 4
    rfl (by decide) (by decide) (by decide) 0 (by decide)

/-! ## Claim C9: the job-store cleanup sweep (`cleanupOldJobs`)

The nested swap loops of the source sort the collected `(id, submittedAt)`
pairs ascending by time: each outer iteration leaves the minimum of the
remaining suffix at the front.  `passMin` is that inner loop (the running
minimum is the accumulator, displaced elements stay in place), and
`sortGoFuel`/`sortGo` is the outer loop, with the list length as fuel. -/

/-- 24 hours in nanoseconds, the retention window of `cleanupOldJobs`. -/
def RETENTION_NS : Nat := 24 * 60 * 60 * 1000000000

/-- The removal test of the first cleanup pass: terminal status, non-zero
completed-at, completed before the cutoff. -/
def isExpired (cutoff : Time) (j : JobInfo) : Bool :=
  isTerminalStatus j.status && (j.completedAt != 0) && decide (j.completedAt < cutoff)

/-- Inner loop of the exchange sort: scan the tail, swapping whenever the
current front is strictly later; returns the minimum and the rest. -/
def passMin (x : String × Nat) : List (String × Nat) → (String × Nat) × List (String × Nat)
  | [] => (x, [])
  | y :: ys =>
    if y.2 < x.2 then
      let r := passMin y ys
      (r.1, x :: r.2)
    else
      let r := passMin x ys
      (r.1, y :: r.2)

/-- Outer loop of the exchange sort, fuelled (the fuel is the length, so
it never runs out). -/
def sortGoFuel : Nat → List (String × Nat) → List (String × Nat)
  | 0, _ => []
  | _ + 1, [] => []
  | fuel + 1, x :: xs =>
    let r := passMin x xs
    r.1 :: sortGoFuel fuel r.2

/-- The ascending-by-time sort performed by the nested swap loops of
`cleanupOldJobs`. -/
def sortGo (l : List (String × Nat)) : List (String × Nat) :=
  sortGoFuel l.length l

/-- First pass of `cleanupOldJobs`: collect the ids of expired terminal
records, then delete them. -/
def cleanupPass1 (cutoff : Time) (jobs : JobMap) : JobMap :=
  ((jobs.filter (fun p => isExpired cutoff p.2)).map (·.1)).foldl deleteJob jobs

/-- Second pass of `cleanupOldJobs`: if the count still exceeds the
maximum, sort `(id, submittedAt)` pairs ascending and delete the first
`count - maxJobs` ids (the oldest records, regardless of status). -/
def cleanupPass2 (maxJobs : Nat) (jobs1 : JobMap) : JobMap :=
  if maxJobs < countJobs jobs1 then
    let allJobs := jobs1.map (fun p => (p.1, p.2.submittedAt))
    let sorted := sortGo allJobs
    let toDelete2 := (sorted.take (allJobs.length - maxJobs)).map (·.1)
    toDelete2.foldl deleteJob jobs1
  else jobs1

/-- `cleanupOldJobs`: the retention pass followed by the size pass, with a
24-hour cutoff before now. -/
def cleanupOldJobs (maxJobs : Nat) (now : Time) (jobs : JobMap) : JobMap :=
  cleanupPass2 maxJobs (cleanupPass1 (now - RETENTION_NS) jobs)

theorem isExpired_eq_true_iff (cutoff : Time) (j : JobInfo) :
    isExpired cutoff j = true ↔
      (isTerminalStatus j.status = true ∧ j.completedAt ≠ 0 ∧ j.completedAt < cutoff) := by
  simp [isExpired, and_assoc]

theorem foldl_deleteJob_eq_filter (ids : List String) (jobs : JobMap) :
    ids.foldl deleteJob jobs = jobs.filter (fun p => decide (p.1 ∉ ids)) := by
  induction ids generalizing jobs with
  | nil => simp
  | cons a as ih =>
    rw [List.foldl_cons, ih, deleteJob, mapDelete, List.filter_filter]
    apply List.filter_congr
    intro p _
    by_cases h1 : p.1 = a <;> by_cases h2 : p.1 ∈ as <;> simp [h1, h2]

theorem passMin_length (x : String × Nat) (l : List (String × Nat)) :
    (passMin x l).2.length = l.length := by
  induction l generalizing x with
  | nil => rfl
  | cons y ys ih =>
    rw [passMin]
    split <;> simp [ih]

theorem passMin_perm (x : String × Nat) (l : List (String × Nat)) :
    List.Perm ((passMin x l).1 :: (passMin x l).2) (x :: l) := by
  induction l generalizing x with
  | nil => rfl
  | cons y ys ih =>
    rw [passMin]
    split
    · exact (List.Perm.swap x (passMin y ys).1 (passMin y ys).2).trans ((ih y).cons x)
    · exact ((List.Perm.swap y (passMin x ys).1 (passMin x ys).2).trans
        ((ih x).cons y)).trans (List.Perm.swap x y ys)

theorem passMin_min (x : String × Nat) (l : List (String × Nat)) :
    (passMin x l).1.2 ≤ x.2 ∧ ∀ y ∈ (passMin x l).2, (passMin x l).1.2 ≤ y.2 := by
  induction l generalizing x with
  | nil => exact ⟨le_refl _, by simp [passMin]⟩
  | cons y ys ih =>
    rw [passMin]
    split
    · rename_i hlt
      refine ⟨le_trans (ih y).1 (by omega), ?_⟩
      intro z hz
      rcases List.mem_cons.mp hz with hz | hz
      · subst hz
        exact le_trans (ih y).1 (by omega)
      · exact (ih y).2 z hz
    · rename_i hge
      refine ⟨(ih x).1, ?_⟩
      intro z hz
      rcases List.mem_cons.mp hz with hz | hz
      · subst hz
        exact le_trans (ih x).1 (by omega)
      · exact (ih x).2 z hz

theorem sortGoFuel_perm (fuel : Nat) :
    ∀ l : List (String × Nat), l.length ≤ fuel → List.Perm (sortGoFuel fuel l) l := by
  induction fuel with
  | zero =>
    intro l hl
    rw [List.length_eq_zero.mp (Nat.le_zero.mp hl)]
    rfl
  | succ fuel ih =>
    intro l hl
    match l with
    | [] => rfl
    | x :: xs =>
      rw [sortGoFuel]
      have hlen : (passMin x xs).2.length ≤ fuel := by
        rw [passMin_length]
        simpa using hl
      exact ((ih _ hlen).cons _).trans (passMin_perm x xs)

theorem sortGoFuel_sorted (fuel : Nat) :
    ∀ l : List (String × Nat), l.length ≤ fuel →
      List.Sorted (fun a b => a.2 ≤ b.2) (sortGoFuel fuel l) := by
  induction fuel with
  | zero =>
    intro l _
    simp [sortGoFuel]
  | succ fuel ih =>
    intro l hl
    match l with
    | [] => simp [sortGoFuel]
    | x :: xs =>
      rw [sortGoFuel, List.sorted_cons]
      have hlen : (passMin x xs).2.length ≤ fuel := by
        rw [passMin_length]
        simpa using hl
      refine ⟨?_, ih _ hlen⟩
      intro b hb
      have hb2 : b ∈ (passMin x xs).2 := (sortGoFuel_perm fuel _ hlen).mem_iff.mp hb
      exact (passMin_min x xs).2 b hb2

theorem sortGo_perm (l : List (String × Nat)) : List.Perm (sortGo l) l :=
  sortGoFuel_perm l.length l (le_refl _)

theorem sortGo_sorted (l : List (String × Nat)) :
    List.Sorted (fun a b => a.2 ≤ b.2) (sortGo l) :=
  sortGoFuel_sorted l.length l (le_refl _)

theorem sorted_take_le_drop (l : List (String × Nat))
    (h : List.Sorted (fun a b => a.2 ≤ b.2) l) (k : Nat)
    (a b : String × Nat) (ha : a ∈ l.take k) (hb : b ∈ l.drop k) : a.2 ≤ b.2 := by
  rw [← List.take_append_drop k l] at h
  exact (List.pairwise_append.mp h).2.2 a ha b hb

/-- Two entries of a list with duplicate-free keys and the same key are
the same entry. -/
theorem eq_of_mem_of_nodup_keys {α β : Type} (f : α → β) (l : List α)
    (hnd : (l.map f).Nodup) (a b : α) (ha : a ∈ l) (hb : b ∈ l) (hf : f a = f b) :
    a = b := by
  induction l with
  | nil => cases ha
  | cons x xs ih =>
    rw [List.map_cons, List.nodup_cons] at hnd
    rcases List.mem_cons.mp ha with ha1 | ha1 <;> rcases List.mem_cons.mp hb with hb1 | hb1
    · rw [ha1, hb1]
    · exfalso
      apply hnd.1
      have hmem : f b ∈ xs.map f := List.mem_map_of_mem f hb1
      rw [ha1] at hf
      rwa [← hf] at hmem
    · exfalso
      apply hnd.1
      have hmem : f a ∈ xs.map f := List.mem_map_of_mem f ha1
      rw [hb1] at hf
      rwa [hf] at hmem
    · exact ih hnd.2 ha1 hb1

theorem cleanupPass1_mem (cutoff : Time) (jobs : JobMap) (p : String × JobInfo) :
    p ∈ cleanupPass1 cutoff jobs ↔
      p ∈ jobs ∧ p.1 ∉ (jobs.filter (fun q => isExpired cutoff q.2)).map (·.1) := by
  rw [cleanupPass1, foldl_deleteJob_eq_filter]
  simp [List.mem_filter]

theorem cleanupPass1_sublist (cutoff : Time) (jobs : JobMap) :
    List.Sublist (cleanupPass1 cutoff jobs) jobs := by
  rw [cleanupPass1, foldl_deleteJob_eq_filter]
  exact List.filter_sublist jobs

theorem cleanupPass1_not_expired (cutoff : Time) (jobs : JobMap) (p : String × JobInfo)
    (hp : p ∈ cleanupPass1 cutoff jobs) : isExpired cutoff p.2 = false := by
  rw [cleanupPass1_mem] at hp
  by_contra hexp
  apply hp.2
  have hmemf : p ∈ jobs.filter (fun q => isExpired cutoff q.2) :=
    List.mem_filter.mpr ⟨hp.1, by simpa using hexp⟩
  exact List.mem_map_of_mem (·.1) hmemf

theorem cleanupPass1_mem_of_not_expired (cutoff : Time) (jobs : JobMap)
    (hnd : (jobs.map (·.1)).Nodup) (p : String × JobInfo)
    (hp : p ∈ jobs) (hexp : isExpired cutoff p.2 = false) :
    p ∈ cleanupPass1 cutoff jobs := by
  rw [cleanupPass1_mem]
  refine ⟨hp, ?_⟩
  intro hmem
  rcases List.mem_map.mp hmem with ⟨q, hq, hq1⟩
  have hq2 := List.mem_filter.mp hq
  have : q = p := eq_of_mem_of_nodup_keys (·.1) jobs hnd q p hq2.1 hp hq1
  rw [this] at hq2
  rw [hexp] at hq2
  simp at hq2

theorem cleanupPass2_mem (maxJobs : Nat) (jobs1 : JobMap) (p : String × JobInfo)
    (hp : p ∈ cleanupPass2 maxJobs jobs1) : p ∈ jobs1 := by
  rw [cleanupPass2] at hp
  split at hp
  · rw [foldl_deleteJob_eq_filter] at hp
    exact (List.mem_filter.mp hp).1
  · exact hp

theorem pair_mem_sortGo (jobs1 : JobMap) (p : String × JobInfo) (hp : p ∈ jobs1) :
    (p.1, p.2.submittedAt) ∈ sortGo (jobs1.map (fun r => (r.1, r.2.submittedAt))) :=
  (sortGo_perm _).mem_iff.mpr
    (List.mem_map_of_mem (fun r => (r.1, r.2.submittedAt)) hp)

theorem sortGo_keys_nodup (jobs1 : JobMap) (hnd1 : (jobs1.map (·.1)).Nodup) :
    ((sortGo (jobs1.map (fun r => (r.1, r.2.submittedAt)))).map (·.1)).Nodup := by
  have h1 : List.Perm
      ((sortGo (jobs1.map (fun r => (r.1, r.2.submittedAt)))).map (·.1))
      ((jobs1.map (fun r => (r.1, r.2.submittedAt))).map (·.1)) :=
    (sortGo_perm _).map _
  have h2 : (jobs1.map (fun r => (r.1, r.2.submittedAt))).map (·.1) = jobs1.map (·.1) := by
    rw [List.map_map]
    rfl
  rw [h1.nodup_iff, h2]
  exact hnd1

theorem result_pair_mem_drop (jobs1 : JobMap)
    (k : Nat) (q : String × JobInfo)
    (hq : q ∈ jobs1.filter (fun r => decide (r.1 ∉
        ((sortGo (jobs1.map (fun s => (s.1, s.2.submittedAt)))).take k).map (·.1)))) :
    (q.1, q.2.submittedAt) ∈ (sortGo (jobs1.map (fun s => (s.1, s.2.submittedAt)))).drop k := by
  have hq1 := List.mem_filter.mp hq
  have hqall : (q.1, q.2.submittedAt) ∈ sortGo (jobs1.map (fun s => (s.1, s.2.submittedAt))) :=
    pair_mem_sortGo jobs1 q hq1.1
  have hq_not_take : (q.1, q.2.submittedAt) ∉
      (sortGo (jobs1.map (fun s => (s.1, s.2.submittedAt)))).take k := by
    intro hmem
    have hk : q.1 ∈ ((sortGo (jobs1.map (fun s => (s.1, s.2.submittedAt)))).take k).map (·.1) :=
      List.mem_map_of_mem (·.1) hmem
    have := hq1.2
    simp only [decide_eq_true_eq] at this
    exact this hk
  have := (List.take_append_drop k (sortGo (jobs1.map (fun s => (s.1, s.2.submittedAt))))).symm
  rw [this] at hqall
  rcases List.mem_append.mp hqall with hmem | hmem
  · exact absurd hmem hq_not_take
  · exact hmem

theorem cleanupPass2_count_le (maxJobs : Nat) (jobs1 : JobMap)
    (hnd1 : (jobs1.map (·.1)).Nodup) :
    countJobs (cleanupPass2 maxJobs jobs1) ≤ maxJobs := by
  by_cases h : maxJobs < countJobs jobs1
  · have hres : cleanupPass2 maxJobs jobs1 = jobs1.filter (fun r => decide (r.1 ∉
        ((sortGo (jobs1.map (fun s => (s.1, s.2.submittedAt)))).take
          ((jobs1.map (fun s => (s.1, s.2.submittedAt))).length - maxJobs)).map (·.1))) := by
      rw [cleanupPass2, if_pos h, foldl_deleteJob_eq_filter]
    rw [countJobs, hres]
    set k := (jobs1.map (fun s => (s.1, s.2.submittedAt))).length - maxJobs with hkdef
    set result := jobs1.filter (fun r => decide (r.1 ∉
      ((sortGo (jobs1.map (fun s => (s.1, s.2.submittedAt)))).take k).map (·.1))) with hresdef
    have hkeysnd : (result.map (·.1)).Nodup :=
      hnd1.sublist ((List.filter_sublist jobs1).map (·.1))
    have hmres_nodup : (result.map (fun r => (r.1, r.2.submittedAt))).Nodup := by
      apply List.Nodup.of_map (·.1)
      have h2 : (result.map (fun r => (r.1, r.2.submittedAt))).map (·.1) = result.map (·.1) := by
        rw [List.map_map]
        rfl
      rw [h2]
      exact hkeysnd
    have hsub : ∀ e ∈ result.map (fun r => (r.1, r.2.submittedAt)),
        e ∈ (sortGo (jobs1.map (fun s => (s.1, s.2.submittedAt)))).drop k := by
      intro e he
      obtain ⟨q, hq, rfl⟩ := List.mem_map.mp he
      exact result_pair_mem_drop jobs1 k q hq
    have hcard : (result.map (fun r => (r.1, r.2.submittedAt))).length ≤
        ((sortGo (jobs1.map (fun s => (s.1, s.2.submittedAt)))).drop k).length := by
      rw [← List.toFinset_card_of_nodup hmres_nodup]
      calc (result.map (fun r => (r.1, r.2.submittedAt))).toFinset.card
          ≤ ((sortGo (jobs1.map (fun s => (s.1, s.2.submittedAt)))).drop k).toFinset.card := by
            apply Finset.card_le_card
            intro x hx
            rw [List.mem_toFinset] at hx ⊢
            exact hsub x hx
        _ ≤ ((sortGo (jobs1.map (fun s => (s.1, s.2.submittedAt)))).drop k).length :=
            List.toFinset_card_le _
    have hlen1 : (result.map (fun r => (r.1, r.2.submittedAt))).length = result.length :=
      List.length_map _ _
    have hdroplen : ((sortGo (jobs1.map (fun s => (s.1, s.2.submittedAt)))).drop k).length
        = (sortGo (jobs1.map (fun s => (s.1, s.2.submittedAt)))).length - k :=
      List.length_drop _ _
    have hslen : (sortGo (jobs1.map (fun s => (s.1, s.2.submittedAt)))).length
        = (jobs1.map (fun s => (s.1, s.2.submittedAt))).length :=
      (sortGo_perm _).length_eq
    have hmaplen : (jobs1.map (fun s => (s.1, s.2.submittedAt))).length = jobs1.length :=
      List.length_map _ _
    rw [countJobs] at h
    omega
  · rw [cleanupPass2, if_neg h]
    rw [countJobs] at h ⊢
    omega

theorem cleanupPass2_evicts_oldest (maxJobs : Nat) (jobs1 : JobMap)
    (hnd1 : (jobs1.map (·.1)).Nodup) (p : String × JobInfo)
    (hp : p ∈ jobs1) (hout : p.1 ∉ (cleanupPass2 maxJobs jobs1).map (·.1)) :
    ∀ q ∈ cleanupPass2 maxJobs jobs1, p.2.submittedAt ≤ q.2.submittedAt := by
  intro q hq
  by_cases h : maxJobs < countJobs jobs1
  · have hres : cleanupPass2 maxJobs jobs1 = jobs1.filter (fun r => decide (r.1 ∉
        ((sortGo (jobs1.map (fun s => (s.1, s.2.submittedAt)))).take
          ((jobs1.map (fun s => (s.1, s.2.submittedAt))).length - maxJobs)).map (·.1))) := by
      rw [cleanupPass2, if_pos h, foldl_deleteJob_eq_filter]
    rw [hres] at hout hq
    set k := (jobs1.map (fun s => (s.1, s.2.submittedAt))).length - maxJobs with hkdef
    have hpD2 : p.1 ∈ ((sortGo (jobs1.map (fun s => (s.1, s.2.submittedAt)))).take k).map (·.1) := by
      by_contra hno
      apply hout
      have hmem2 : p ∈ jobs1.filter (fun r => decide (r.1 ∉
          ((sortGo (jobs1.map (fun s => (s.1, s.2.submittedAt)))).take k).map (·.1))) :=
        List.mem_filter.mpr ⟨hp, by simpa using hno⟩
      exact List.mem_map_of_mem (fun x : String × JobInfo => x.1) hmem2
    have hpall : (p.1, p.2.submittedAt) ∈ sortGo (jobs1.map (fun s => (s.1, s.2.submittedAt))) :=
      pair_mem_sortGo jobs1 p hp
    obtain ⟨e, he_take, he_key⟩ := List.mem_map.mp hpD2
    have he_sorted : e ∈ sortGo (jobs1.map (fun s => (s.1, s.2.submittedAt))) :=
      List.take_subset k _ he_take
    have he_eq : e = (p.1, p.2.submittedAt) :=
      eq_of_mem_of_nodup_keys (·.1) _ (sortGo_keys_nodup jobs1 hnd1) e
        (p.1, p.2.submittedAt) he_sorted hpall (by simpa using he_key)
    rw [he_eq] at he_take
    have hq_drop := result_pair_mem_drop jobs1 k q hq
    exact sorted_take_le_drop _ (sortGo_sorted _) k _ _ he_take hq_drop
  · have hres : cleanupPass2 maxJobs jobs1 = jobs1 := by
      rw [cleanupPass2, if_neg h]
    rw [hres] at hout
    exact absurd (List.mem_map_of_mem (·.1) hp) hout

/-- C9: after one run of the cleanup sweep no remaining record is terminal
with a non-zero completed-at older than the 24-hour retention window, the
record count is at most the configured maximum, and every record evicted
by the size pass was submitted no later than every surviving record. -/
theorem cleanupOldJobs_spec (maxJobs : Nat) (now : Time) (jobs : JobMap)
    (hnd : (jobs.map (·.1)).Nodup) :
    (∀ p ∈ cleanupOldJobs maxJobs now jobs,
       ¬(isTerminalStatus p.2.status = true ∧ p.2.completedAt ≠ 0 ∧
         p.2.completedAt < now - RETENTION_NS)) ∧
    countJobs (cleanupOldJobs maxJobs now jobs) ≤ maxJobs ∧
    (∀ p ∈ jobs, isExpired (now - RETENTION_NS) p.2 = false →
       p.1 ∉ (cleanupOldJobs maxJobs now jobs).map (·.1) →
       ∀ q ∈ cleanupOldJobs maxJobs now jobs, p.2.submittedAt ≤ q.2.submittedAt) := by
  have hnd1 : ((cleanupPass1 (now - RETENTION_NS) jobs).map (·.1)).Nodup :=
    hnd.sublist ((cleanupPass1_sublist (now - RETENTION_NS) jobs).map (·.1))
  refine ⟨?_, ?_, ?_⟩
  · intro p hp
    rw [cleanupOldJobs] at hp
    have hp1 : p ∈ cleanupPass1 (now - RETENTION_NS) jobs := cleanupPass2_mem _ _ p hp
    have hnotexp := cleanupPass1_not_expired (now - RETENTION_NS) jobs p hp1
    intro hcontra
    rw [(isExpired_eq_true_iff (now - RETENTION_NS) p.2).mpr hcontra] at hnotexp
    cases hnotexp
  · rw [cleanupOldJobs]
    exact cleanupPass2_count_le maxJobs _ hnd1
  · intro p hp hexp hout q hq
    rw [cleanupOldJobs] at hout hq
    have hp1 : p ∈ cleanupPass1 (now - RETENTION_NS) jobs :=
      cleanupPass1_mem_of_not_expired (now - RETENTION_NS) jobs hnd p hp hexp
    exact cleanupPass2_evicts_oldest maxJobs _ hnd1 p hp1 hout q hq

/-- A queued job submitted at time 10 (cleanup witness). -/
def jobOld : JobInfo :=
  { jobID := "b", userID := "u", type := "ai_training", name := "old",
    status := JobStatusQueued, submittedAt := 10, startedAt := 0,
    completedAt := 0, message := "" }

/-- A queued job submitted at time 20 (cleanup witness). -/
def jobNew : JobInfo :=
  { jobID := "c", userID := "u", type := "ai_training", name := "new",
    status := JobStatusQueued, submittedAt := 20, startedAt := 0,
    completedAt := 0, message := "" }

/-- A completed job whose completed-at (50) is older than the retention
cutoff used in the cleanup witness. -/
def jobExpired : JobInfo :=
  { jobID := "a", userID := "u", type := "ai_training", name := "expired",
    status := JobStatusCompleted, submittedAt := 5, startedAt := 6,
    completedAt := 50, message := "done" }

/-- The concrete store for the cleanup witness. -/
def jobsW : JobMap :=
  [("a", jobExpired), ("b", jobOld), ("c", jobNew)]

/-- Witness for `cleanupOldJobs_spec` at a concrete store: with maximum 1
and now = retention + 100, the expired record is removed, at most one
record survives, and the evicted queued record is older than the
survivor. -/
theorem cleanupOldJobs_spec_witness :
    countJobs (cleanupOldJobs 1 (RETENTION_NS + 100) jobsW) ≤ 1 ∧
    (¬(isTerminalStatus jobNew.status = true ∧ jobNew.completedAt ≠ 0 ∧
       jobNew.completedAt < (RETENTION_NS + 100) - RETENTION_NS)) ∧
    jobOld.submittedAt ≤ jobNew.submittedAt := by
  have h := cleanupOldJobs_spec 1 (RETENTION_NS + 100) jobsW (by decide)
  refine ⟨h.2.1, ?_, ?_⟩
  · exact h.1 ("c", jobNew) (by decide)
  · exact h.2.2 ("b", jobOld) (by decide) (by decide) (by decide) ("c", jobNew) (by decide)

/-- A load balancer over `[a]` whose single in-flight counter is zero. -/
def lbA0 : LoadBalancer :=
  { serviceInstances := [instA], lbType := .roundRobin,
    counter := 0, connectionCount := [("a", 0)] }

/-! ## Auth middleware (`internal/middleware/auth.go`) and job handlers
(`internal/handlers/job_submission.go`)

Go `context.Value` compares keys by dynamic type and value, so the
middleware's typed `contextKey("user_id")` and the handlers' untyped
string `"user_id"` are distinct keys; `CtxKey` captures exactly that
distinction. -/

/-- A Go context key: either the middleware's `contextKey` string type or
a plain untyped string. -/
inductive CtxKey where
  | typed (s : String)
  | str (s : String)
deriving DecidableEq, Repr

/-- A Go `context.Context` as its chain of `WithValue` bindings, newest
first. -/
abbrev Ctx := List (CtxKey × String)

/-- `context.WithValue`. -/
def ctxWithValue (ctx : Ctx) (k : CtxKey) (v : String) : Ctx :=
  (k, v) :: ctx

/-- `context.Value`: nearest binding with an equal key (type and value). -/
def ctxValue : Ctx → CtxKey → Option String
  | [], _ => none
  | (k, v) :: rest, key => if k = key then some v else ctxValue rest key

/-- JWT signing algorithms relevant to the gateway. -/
inductive JWTAlg where
  | HS256
  | HS384
  | HS512
  | RS256
  | ES256
  | algNone
deriving DecidableEq, Repr

/-- Membership in the HMAC family (`*jwt.SigningMethodHMAC`), the test
performed by the keyfunc of `JWTAuth`. -/
def JWTAlg.isHMAC : JWTAlg → Bool
  | .HS256 => true
  | .HS384 => true
  | .HS512 => true
  | _ => false

/-- The decoded view of a bearer token: its algorithm header, whether its
signature verifies under the configured secret, whether it is expired, and
its claims. -/
structure JWTToken where
  alg : JWTAlg
  sigValid : Bool
  expired : Bool
  userID : String
  username : String
  role : String
deriving DecidableEq, Repr

/-- Failure cases of the token parse. -/
inductive JWTParseError where
  | badAlg
  | badSignature
  | tokenExpired
deriving DecidableEq, Repr

/-- Modelled from the jwt/v5 library contract used by the source (an
external collaborator): `ParseWithClaims` first calls the keyfunc — which
`JWTAuth` uses to reject any token whose method is not
`*jwt.SigningMethodHMAC` — and a keyfunc error fails the parse before any
signature or claims check; otherwise the signature is verified with the
returned key and then the registered claims (expiry) are validated. -/
def parseWithClaims (t : JWTToken) : Except JWTParseError JWTToken :=
  if t.alg.isHMAC = false then .error .badAlg
  else if t.sigValid = false then .error .badSignature
  else if t.expired then .error .tokenExpired
  else .ok t

/-- Outcome of a middleware: an HTTP error response, or passing control to
the next handler with the (possibly extended) request context. -/
inductive HTTPResult where
  | httpError (code : Nat) (msg : String)
  | next (ctx : Ctx)
deriving DecidableEq, Repr

/-- Go `strings.Split` for a single-character separator. -/
def splitOnChar (sep : Char) : List Char → List (List Char)
  | [] => [[]]
  | c :: rest =>
    let r := splitOnChar sep rest
    if c = sep then [] :: r
    else
      match r with
      | f :: fs => (c :: f) :: fs
      | [] => [[c]]

/-- The `JWTAuth` middleware body: require a non-empty Authorization
header of the shape `Bearer <token>`, parse the token (`decode` models the
decoding of the compact serialization into the token view) and, on
success, store the three claims in the request context under the typed
context keys. -/
def jwtAuth (decode : List Char → JWTToken) (ctx0 : Ctx) (authHeader : List Char) :
    HTTPResult :=
  if authHeader = [] then .httpError 401 "Unauthorized: no token provided"
  else if (splitOnChar ' ' authHeader).length ≠ 2 ∨
      (splitOnChar ' ' authHeader).headD [] ≠ "Bearer".toList then
    .httpError 401 "Unauthorized: invalid token format"
  else
    match parseWithClaims (decode ((splitOnChar ' ' authHeader).getD 1 [])) with
    | .error .tokenExpired => .httpError 401 "Unauthorized: token has expired"
    | .error _ => .httpError 401 "Unauthorized: invalid token"
    | .ok t =>
      .next (ctxWithValue (ctxWithValue (ctxWithValue ctx0
        (.typed "user_id") t.userID) (.typed "username") t.username)
        (.typed "user_role") t.role)

/-- `JobRequest` (the fields the handler validates; params and tags are
opaque to the gateway). -/
structure JobRequest where
  type : String
  name : String
  description : String
  gpuType : String
  gpuCount : Int
  priority : Int
deriving DecidableEq, Repr

/-- The store effect and HTTP status of `SubmitJob`: validate, read the
user id from the context under the untyped string key `"user_id"`
(defaulting to the empty string), store the job record, then publish
(`publishOk` models the NATS publish outcome; the record is stored before
publishing, and `jobID` models the freshly generated UUID). -/
def submitJob (now : Time) (ctx : Ctx) (req : JobRequest) (jobID : String)
    (publishOk : Bool) (jobs : JobMap) : Nat × JobMap :=
  if req.type = "" then (400, jobs)
  else if req.name = "" then (400, jobs)
  else if req.gpuCount < 1 then (400, jobs)
  else
    (if publishOk then 202 else 500,
     addJob now jobs
       { jobID := jobID, userID := (ctxValue ctx (.str "user_id")).getD "",
         type := req.type, name := req.name,
         status := JobStatusQueued, submittedAt := now, startedAt := 0,
         completedAt := 0, message := "Job submitted successfully" })

/-- `ListJobs`: 401 when the untyped string key `"user_id"` is absent from
the request context, otherwise the jobs of that user. -/
def listJobs (ctx : Ctx) (jobs : JobMap) : Nat × List JobInfo :=
  match ctxValue ctx (.str "user_id") with
  | none => (401, [])
  | some uid => (200, listJobsByUser jobs uid)

@[simp] theorem addJobDefaults_userID (now : Time) (j : JobInfo) :
    (addJobDefaults now j).userID = j.userID := by
  unfold addJobDefaults defaultSubmittedAt defaultStatus
  split <;> split <;> rfl

theorem jwtAuth_next_ctx (decode : List Char → JWTToken) (ctx0 : Ctx)
    (authHeader : List Char) (ctx : Ctx)
    (h : jwtAuth decode ctx0 authHeader = .next ctx) :
    ∃ t : JWTToken,
      ctx = (CtxKey.typed "user_role", t.role) :: (CtxKey.typed "username", t.username)
        :: (CtxKey.typed "user_id", t.userID) :: ctx0 := by
  unfold jwtAuth at h
  split at h
  · cases h
  · split at h
    · cases h
    · split at h
      · cases h
      · cases h
      · rename_i t heq
        refine ⟨t, ?_⟩
        injection h with h1
        rw [← h1]
        rfl

/-- C3: for every request that passes the JWT middleware, the job handlers
never observe the principal: the middleware stores the user id under the
typed key `contextKey("user_id")` while `SubmitJob` and `ListJobs` look up
the untyped string key `"user_id"`, so every freshly submitted job record
is stored with an empty owner and `ListJobs` returns 401 Unauthorized,
whatever token (even a valid admin one) the request carried. -/
theorem contextKey_mismatch_hides_principal
    (decode : List Char → JWTToken) (ctx0 : Ctx) (authHeader : List Char) (ctx : Ctx)
    (h0 : ctxValue ctx0 (.str "user_id") = none)
    (hnext : jwtAuth decode ctx0 authHeader = .next ctx) :
    (∀ (now : Time) (req : JobRequest) (jobID : String) (publishOk : Bool)
       (jobs : JobMap) (job : JobInfo),
       mapLookup jobs jobID = none →
       mapLookup (submitJob now ctx req jobID publishOk jobs).2 jobID = some job →
       job.userID = "") ∧
    (∀ jobs : JobMap, (listJobs ctx jobs).1 = 401) := by
  obtain ⟨t, hctx⟩ := jwtAuth_next_ctx decode ctx0 authHeader ctx hnext
  have hval : ctxValue ctx (.str "user_id") = none := by
    rw [hctx]
    simp only [ctxValue]
    rw [if_neg (by simp), if_neg (by simp), if_neg (by simp)]
    exact h0
  constructor
  · intro now req jobID publishOk jobs job hfresh hlook
    unfold submitJob at hlook
    split at hlook
    · rw [hfresh] at hlook
      cases hlook
    · split at hlook
      · rw [hfresh] at hlook
        cases hlook
      · split at hlook
        · rw [hfresh] at hlook
          cases hlook
        · rw [hval] at hlook
          unfold addJob at hlook
          dsimp only at hlook
          split at hlook
          · rw [hfresh] at hlook
            cases hlook
          · rw [addJobDefaults_jobID] at hlook
            dsimp only at hlook
            rw [mapLookup_insert_self] at hlook
            injection hlook with hj
            rw [← hj]
            simp
  · intro jobs
    unfold listJobs
    rw [hval]

/-- The admin token used by the C3 witness. -/
def adminToken : JWTToken :=
  { alg := .HS256, sigValid := true, expired := false,
    userID := "u1", username := "root", role := "admin" }

/-- The context the middleware builds for `adminToken` over an empty base
context. -/
def ctxAdmin : Ctx :=
  [(CtxKey.typed "user_role", "admin"), (CtxKey.typed "username", "root"),
   (CtxKey.typed "user_id", "u1")]

/-- A valid submission request (scenario S4). -/
def reqTrain : JobRequest :=
  { type := "ai_training", name := "t", description := "", gpuType := "A100",
    gpuCount := 1, priority := 0 }

/-- The record `SubmitJob` stores for `reqTrain` under `ctxAdmin`: the
owner field is empty. -/
def jobStoredW : JobInfo :=
  { jobID := "jid", userID := "", type := "ai_training", name := "t",
    status := JobStatusQueued, submittedAt := 7, startedAt := 0,
    completedAt := 0, message := "Job submitted successfully" }

/-- Witness for `contextKey_mismatch_hides_principal`: a valid admin token
passes the middleware, yet the stored job has an empty owner and ListJobs
answers 401. -/
theorem contextKey_mismatch_witness :
    jobStoredW.userID = "" ∧ (listJobs ctxAdmin []).1 = 401 := by
  have h := contextKey_mismatch_hides_principal (fun _ => adminToken) []
    ("Bearer tok".toList) ctxAdmin rfl (by decide)
  exact ⟨h.1 7 reqTrain "jid" true [] jobStoredW rfl (by decide), h.2 []⟩

/-- C10: a bearer token whose algorithm header is outside the HMAC family
is rejected by the JWT middleware with 401 Unauthorized, independent of
its signature, claims or expiry: the keyfunc fails before any signature
check. -/
theorem jwtAuth_rejects_non_hmac
    (decode : List Char → JWTToken) (ctx0 : Ctx) (authHeader tokenString : List Char)
    (hsplit : splitOnChar ' ' authHeader = ["Bearer".toList, tokenString])
    (halg : (decode tokenString).alg.isHMAC = false) :
    jwtAuth decode ctx0 authHeader = .httpError 401 "Unauthorized: invalid token" := by
  have hne : authHeader ≠ [] := by
    intro he
    rw [he] at hsplit
    simp [splitOnChar] at hsplit
  unfold jwtAuth
  rw [if_neg hne, hsplit, if_neg (by simp)]
  have hget : (["Bearer".toList, tokenString]).getD 1 [] = tokenString := rfl
  rw [hget]
  unfold parseWithClaims
  rw [if_pos halg]

/-- A token with `alg = none`, a (vacuously) valid signature and no
expiry: scenario S6. -/
def noneAlgToken : JWTToken :=
  { alg := .algNone, sigValid := true, expired := false,
    userID := "u1", username := "root", role := "admin" }

/-- Witness for `jwtAuth_rejects_non_hmac` at the alg-none token of
scenario S6. -/
theorem jwtAuth_rejects_non_hmac_witness :
    jwtAuth (fun _ => noneAlgToken) [] ("Bearer x".toList)
      = .httpError 401 "Unauthorized: invalid token" :=
  jwtAuth_rejects_non_hmac (fun _ => noneAlgToken) [] ("Bearer x".toList) ("x".toList)
    (by decide) rfl

/-! ## Rate-limit client key (`internal/middleware/ratelimit.go`, claim C4)

The middleware takes the host of the peer address and then, when an
X-Forwarded-For header is present, passes the ENTIRE header value through
`net.ParseIP`, overriding the key only when that whole value parses as one
IP.  `goParseIP` and `splitHostPort` are modelled from the documented
behaviour of the Go standard library (external collaborators), restricted
to the inputs that matter here: IPv4 dotted quads (which are their own
canonical `String()` form) and plain `host:port` peer addresses; IPv6 and
bracketed literals, which no claim exercises, are modelled as failing. -/

/-- Decimal digit test. -/
def isDigitChar (c : Char) : Bool :=
  decide ('0' ≤ c) && decide (c ≤ '9')

/-- Numeric value of a decimal digit string. -/
def digitsVal (l : List Char) : Nat :=
  l.foldl (fun acc c => acc * 10 + (c.toNat - '0'.toNat)) 0

/-- One dotted-quad field accepted by the Go IPv4 parser: one to three
decimal digits, no leading zero on a multi-digit field, value at most
255. -/
def ipv4FieldOk (f : List Char) : Bool :=
  decide (f ≠ []) && f.all isDigitChar && decide (f.length ≤ 3) &&
  (decide (f.length = 1) || decide (f.headD '0' ≠ '0')) && decide (digitsVal f ≤ 255)

/-- The Go IPv4 dotted-quad parser: exactly four valid fields separated by
dots. -/
def parseIPv4 (s : List Char) : Bool :=
  decide ((splitOnChar '.' s).length = 4) && (splitOnChar '.' s).all ipv4FieldOk

/-- The scan `net.ParseIP` uses to choose a parser: the first `.` or `:`
decides between IPv4 and IPv6. -/
def firstSpecial : List Char → Option Char
  | [] => none
  | c :: rest => if c = '.' ∨ c = ':' then some c else firstSpecial rest

/-- Modelled from the Go standard library contract of `net.ParseIP`: a
first `.` selects the IPv4 parser (valid dotted quads are their own
canonical `String()` rendering, so the parsed-then-printed value equals
the input); a first `:` selects the IPv6 parser, modelled as failing (no
claim input is an IPv6 literal, and none containing a comma parses in Go
either); a string with neither separator is not an IP. -/
def goParseIP (s : List Char) : Option (List Char) :=
  match firstSpecial s with
  | some '.' => if parseIPv4 s then some s else none
  | _ => none

/-- Split at the last colon, returning (before, after). -/
def lastColonSplit : List Char → Option (List Char × List Char)
  | [] => none
  | c :: rest =>
    match lastColonSplit rest with
    | some (h, p) => some (c :: h, p)
    | none => if c = ':' then some ([], rest) else none

/-- Modelled from the Go standard library contract of `net.SplitHostPort`:
host is everything before the last colon; fails with no colon, a colon in
the host part, or bracketed literals (not exercised by the claims). -/
def splitHostPort (s : List Char) : Option (List Char) :=
  if '[' ∈ s ∨ ']' ∈ s then none
  else
    match lastColonSplit s with
    | none => none
    | some (h, _) => if ':' ∈ h then none else some h

/-- The client-key computation of the `RateLimit` middleware: the host of
`r.RemoteAddr` (the whole address when it does not split), overridden by
the X-Forwarded-For value only when that entire value parses as a single
IP. -/
def rateLimitKey (remoteAddr xff : List Char) : List Char :=
  let ip := match splitHostPort remoteAddr with
    | some h => h
    | none => remoteAddr
  if xff ≠ [] then
    match goParseIP xff with
    | some s => s
    | none => ip
  else ip

/-- C4: the code keys the request by the host of the peer address, not by
the first X-Forwarded-For entry, whenever the header holds a
comma-separated list: `net.ParseIP` receives the entire value
`1.2.3.4, 5.6.7.8`, fails, and the middleware falls back to the peer
host `9.9.9.9` instead of the `1.2.3.4` required by the claim. -/
theorem rateLimitKey_ignores_forwarded_list :
    rateLimitKey ("9.9.9.9:1234".toList) ("1.2.3.4, 5.6.7.8".toList) = "9.9.9.9".toList ∧
    rateLimitKey ("9.9.9.9:1234".toList) ("1.2.3.4, 5.6.7.8".toList) ≠ "1.2.3.4".toList ∧
    goParseIP ("1.2.3.4".toList) = some ("1.2.3.4".toList) := by
  refine ⟨by decide, by decide, by decide⟩

/-! ## Proxy target URL (`internal/proxy/proxy.go`, claim C5) -/

/-- The parts of a `url.URL` the proxy manipulates. -/
structure GoURL where
  scheme : String
  host : String
  path : List Char
  rawQuery : List Char
deriving DecidableEq, Repr

/-- Modelled from the Go standard library `httputil` (an external
collaborator): the path-joining helper of
`NewSingleHostReverseProxy`. -/
def singleJoiningSlash (a b : List Char) : List Char :=
  if a.getLast? = some '/' ∧ b.head? = some '/' then a ++ b.tail
  else if ¬a.getLast? = some '/' ∧ ¬b.head? = some '/' then a ++ '/' :: b
  else a ++ b

/-- Modelled from the Go standard library `httputil` (an external
collaborator): the URL rewrite applied by the director of
`NewSingleHostReverseProxy` — scheme and host from the target, path joined
from target path and request path, query concatenated. -/
def rewriteRequestURL (req target : GoURL) : GoURL :=
  { scheme := target.scheme
    host := target.host
    path := singleJoiningSlash target.path req.path
    rawQuery :=
      if target.rawQuery = [] ∨ req.rawQuery = [] then target.rawQuery ++ req.rawQuery
      else target.rawQuery ++ '&' :: req.rawQuery }

/-- The target URL built by `HandleProxy`: fixed http scheme, the instance
authority, and the inbound request path as the target path. -/
def proxyTargetURL (inst : ServiceInstance) (reqPath : List Char) : GoURL :=
  { scheme := "http", host := inst.address ++ ":" ++ toString inst.port,
    path := reqPath, rawQuery := [] }

/-- The URL the chosen upstream instance receives: the inbound request
rewritten against `proxyTargetURL`. -/
def proxyOutboundURL (inst : ServiceInstance) (req : GoURL) : GoURL :=
  rewriteRequestURL req (proxyTargetURL inst req.path)

/-- C5: the upstream URL keeps scheme http, the instance authority and the
raw query, but the path is NOT forwarded verbatim: the inbound path is
also the target base path, so the director turns path `/x` into `/x/x`. -/
theorem proxyOutboundURL_duplicates_path :
    proxyOutboundURL instA
        { scheme := "http", host := "gw", path := "/x".toList, rawQuery := "q=1".toList }
      = { scheme := "http", host := "10.0.0.1:8080", path := "/x/x".toList,
          rawQuery := "q=1".toList } ∧
    "/x/x".toList ≠ "/x".toList := by
  refine ⟨by decide, by decide⟩

/-- Witness for `instanceEnd_saturates`: an end on a zero counter, an end
on an unknown id, and a begin-end-begin run whose counters stay within the
begin count. -/
theorem instanceEnd_saturates_witness :
    instanceEnd lbA0 "a" = lbA0 ∧
    mapLookup (instanceEnd lbA0 "x").connectionCount "x" = none ∧
    1 ≤ countBegins [LBOp.endOp "a", LBOp.beginOp "a"] :=
  ⟨instanceEnd_saturates.1 lbA0 "a" rfl,
   instanceEnd_saturates.2.1 lbA0 "x" rfl,
   instanceEnd_saturates.2.2 .roundRobin [instA] [LBOp.endOp "a", LBOp.beginOp "a"] "a" 1 rfl⟩

end Siger
